import Mathlib

/-!
Shallow embedding of the n3dc_obj OBJ-subset loader (src/libs/n3dc_obj.h) and
theorems about its parsing pipeline.

Modelling conventions:
- The file contents are passed to the load operation as a character list; the
  file-system read (n3dc_obj_read_text_file) is outside the parser proper.
- C float/double values are modelled as exact rationals; every numeric literal
  appearing in the claims is exactly representable, so the rational model and
  the C float computation agree on them.
- C unsigned arithmetic appears only in the (unsigned) cast applied to atoi's
  result; it is modelled by reduction mod 2^32.
- Scanners work on the suffix of the buffer starting at their start offset and
  report offsets relative to that suffix; the C functions read only characters
  at indices of at least the start offset, so their behaviour depends only on
  that suffix.
- Reads of allocated but uninitialized pool memory yield an unspecified value;
  they are modelled by a default value 0 and none of the theorems below depends
  on it.  Reads or scans outside an allocation are undefined behaviour and are
  modelled by the distinguished results LoadResult.ub / SeekResult.outOfBounds /
  FaceResult.uninit.
-/

namespace N3dcObj

set_option maxRecDepth 100000

/-- Whitespace accepted by C atoi/atof before the number (isspace set). -/
def isCSpace (c : Char) : Bool :=
  c == ' ' || c == '\t' || c == '\n' || c == '\r' || c == '\x0b' || c == '\x0c'

/-- Value of a decimal digit string, most significant digit first. -/
def digitsToNat (ds : List Char) : Nat :=
  ds.foldl (fun a c => 10 * a + (c.toNat - 48)) 0

/-- C atoi on a character list: skip leading whitespace, optional single sign,
longest run of digits; result 0 when there are no digits. -/
def atoiInt (l : List Char) : Int :=
  match l.dropWhile isCSpace with
  | '-' :: rs => -(digitsToNat (rs.takeWhile Char.isDigit) : Int)
  | '+' :: rs => (digitsToNat (rs.takeWhile Char.isDigit) : Int)
  | l1 => (digitsToNat (l1.takeWhile Char.isDigit) : Int)

/-- C atof (strtod) restricted to the character set that can reach the
converter here (digits, '.', '-', whitespace; the vector scanners reject
exponent characters before any conversion happens): longest valid prefix,
with the exact rational value. -/
def atofQ (l : List Char) : ℚ :=
  let l1 := l.dropWhile isCSpace
  let p :=
    match l1 with
    | '-' :: rs => (true, rs)
    | '+' :: rs => (false, rs)
    | _ => (false, l1)
  let ip := p.2.takeWhile Char.isDigit
  let rest := p.2.dropWhile Char.isDigit
  let fd :=
    match rest with
    | '.' :: rs => rs.takeWhile Char.isDigit
    | _ => []
  let mag : ℚ :=
    mkRat ((digitsToNat ip : Int) * 10 ^ fd.length + (digitsToNat fd : Int)) (10 ^ fd.length)
  if p.1 then -mag else mag

/-- C n3dc_obj_min_uint: (a < b) ? a : b. -/
def n3dc_obj_min_uint (a b : Nat) : Nat := if a < b then a else b

/-- C n3dc_obj_string_section_to_float.  The half-open character range
[start, end) is represented by its character slice; exactly as in the C code,
only the first min(length, 10) characters are copied into the bounded buffer
that is handed to atof. -/
def n3dc_obj_string_section_to_float (sec : List Char) : ℚ :=
  atofQ (sec.take (n3dc_obj_min_uint sec.length 10))

/-- C n3dc_obj_string_section_to_uint: first min(length, 10) characters, atoi,
then the (unsigned) cast, i.e. the value mod 2^32. -/
def n3dc_obj_string_section_to_uint (sec : List Char) : Nat :=
  (atoiInt (sec.take (n3dc_obj_min_uint sec.length 10)) % (2 ^ 32 : Int)).toNat

/-- C n3dc_obj_is_valid_vec_char: the switch over '-', '.' and the digits. -/
def n3dc_obj_is_valid_vec_char (c : Char) : Bool :=
  match c with
  | '-' => true
  | '.' => true
  | '0' => true
  | '1' => true
  | '2' => true
  | '3' => true
  | '4' => true
  | '5' => true
  | '6' => true
  | '7' => true
  | '8' => true
  | '9' => true
  | _ => false

/-- One error value per diagnostic printed by the C code. -/
inductive ObjError
  | vec3NoX
  | vec3NoY
  | vec3InvalidChar (c : Char)
  | vec3Eof
  | vec2NoX
  | vec2InvalidChar (c : Char)
  | vec2Eof
  | idxNoTexture
  | idxVertexZero
  | idxTextureZero
  | idxNormalZero
  | idxEof
  | faceNonTriangulated
  | faceEof
  | seekEof
  | maxVerticesExceeded
  | maxTexCoordsExceeded
  | maxNormalsExceeded
  | maxIndicesExceeded
deriving DecidableEq

/-- Result of a scanner: the parsed value or the error whose diagnostic the C
function prints before returning -1. -/
inductive ParseOut (α : Type)
  | ok (a : α)
  | fail (e : ObjError)
deriving DecidableEq

/-- Scan loop of n3dc_obj_parse_obj_vec3.  State: index i of the current
character relative to the scan start, the x_parsed/y_parsed flags, the
captured x and y sections and the characters accumulated since the last
recorded section boundary.  A section [a, b) of the buffer is exactly the
list of characters the loop consumed between recording a and recording b, so
carrying those lists is the same slicing the C code performs with indices. -/
def vec3Go : List Char → Nat → Bool → Bool → List Char → List Char → List Char →
    ParseOut (ℚ × ℚ × ℚ × Nat)
  | [], _, _, _, _, _, _ => .fail .vec3Eof
  | c :: rs, i, xP, yP, xTok, yTok, acc =>
    if c = ' ' then
      if xP = false then vec3Go rs (i + 1) true yP acc yTok [' ']
      else if yP = false then vec3Go rs (i + 1) xP true xTok acc [' ']
      else vec3Go rs (i + 1) xP yP xTok yTok (acc ++ [c])
    else if c = '\n' then
      if xP = false then .fail .vec3NoX
      else if yP = false then .fail .vec3NoY
      else .ok (n3dc_obj_string_section_to_float xTok,
                n3dc_obj_string_section_to_float yTok,
                n3dc_obj_string_section_to_float acc, i)
    else if n3dc_obj_is_valid_vec_char c then
      vec3Go rs (i + 1) xP yP xTok yTok (acc ++ [c])
    else .fail (.vec3InvalidChar c)

/-- C n3dc_obj_parse_obj_vec3 on the buffer suffix starting at vec3_start;
on success returns (x, y, z, line_end) with line_end relative to the start. -/
def n3dc_obj_parse_obj_vec3 (s : List Char) : ParseOut (ℚ × ℚ × ℚ × Nat) :=
  vec3Go s 0 false false [] [] []

/-- Scan loop of n3dc_obj_parse_obj_vec2.  Every space overwrites x_end, so on
a space the x section grows to everything consumed so far. -/
def vec2Go : List Char → Nat → Bool → List Char → List Char → ParseOut (ℚ × ℚ × Nat)
  | [], _, _, _, _ => .fail .vec2Eof
  | c :: rs, i, xP, xTok, acc =>
    if c = ' ' then
      vec2Go rs (i + 1) true (if xP then xTok ++ acc else acc) [' ']
    else if c = '\n' then
      if xP = false then .fail .vec2NoX
      else .ok (n3dc_obj_string_section_to_float xTok,
                n3dc_obj_string_section_to_float acc, i)
    else if n3dc_obj_is_valid_vec_char c then
      vec2Go rs (i + 1) xP xTok (acc ++ [c])
    else .fail (.vec2InvalidChar c)

/-- C n3dc_obj_parse_obj_vec2 on the buffer suffix starting at vec2_start. -/
def n3dc_obj_parse_obj_vec2 (s : List Char) : ParseOut (ℚ × ℚ × Nat) :=
  vec2Go s 0 false [] []

/-- Terminator block of n3dc_obj_parse_obj_index_group (lines 250-281 of the
C file): mandatory texture index, the three zero checks in order, then the
1-based to 0-based decrements.  pos is the terminator's index, term the
terminator character itself. -/
def finishChecks (vTok tTok nTok : List Char) (pos : Nat) (term : Char) (tP : Bool) :
    ParseOut (Nat × Nat × Nat × Nat × Char) :=
  if tP = false then .fail .idxNoTexture
  else
    let v := n3dc_obj_string_section_to_uint vTok
    if v = 0 then .fail .idxVertexZero
    else
      let t := n3dc_obj_string_section_to_uint tTok
      if t = 0 then .fail .idxTextureZero
      else
        let n := n3dc_obj_string_section_to_uint nTok
        if n = 0 then .fail .idxNormalZero
        else .ok (v - 1, t - 1, n - 1, pos, term)

/-- Scan loop of n3dc_obj_parse_obj_index_group.  The vertex section is what
precedes the first '/', the texture section sits strictly between the first
and second '/', the normal section runs from just after the second '/' to the
first space or newline that follows the first '/'; later '/' characters are
not boundaries and stay inside the normal section, and space or newline seen
before any '/' is an ordinary section character. -/
def idxGo : List Char → Nat → Bool → Bool → List Char → List Char → List Char →
    ParseOut (Nat × Nat × Nat × Nat × Char)
  | [], _, _, _, _, _, _ => .fail .idxEof
  | c :: rs, i, vP, tP, vTok, tTok, acc =>
    if c = '/' then
      if vP = false then idxGo rs (i + 1) true tP acc tTok []
      else if tP = false then idxGo rs (i + 1) vP true vTok acc []
      else idxGo rs (i + 1) vP tP vTok tTok (acc ++ [c])
    else if (c == ' ' || c == '\n') && vP then
      finishChecks vTok tTok acc i c tP
    else idxGo rs (i + 1) vP tP vTok tTok (acc ++ [c])

/-- C n3dc_obj_parse_obj_index_group on the buffer suffix starting at
index_group_start; on success returns the three 0-based indices, the
terminator offset relative to the start, and the terminator character. -/
def n3dc_obj_parse_obj_index_group (s : List Char) : ParseOut (Nat × Nat × Nat × Nat × Char) :=
  idxGo s 0 false false [] [] []

/-- Output of a face parse: three (vertex, texture, normal) index triples and
the offset of the terminating newline relative to the face start. -/
structure FaceOut where
  v1 : Nat
  t1 : Nat
  n1 : Nat
  v2 : Nat
  t2 : Nat
  n2 : Nat
  v3 : Nat
  t3 : Nat
  n3 : Nat
  lineEnd : Nat
deriving DecidableEq

/-- Result of n3dc_obj_parse_obj_face.  uninit records the path in which the
third index-group scan fails while the character at the stale index_group_end
value (the first character handed to that scan) is a newline: the C code then
returns success without ever writing the third triple, so the caller's slots
keep whatever malloc left there. -/
inductive FaceResult
  | ok (out : FaceOut)
  | fail (e : ObjError)
  | uninit (g1 g2 : Nat × Nat × Nat) (lineEnd : Nat)
deriving DecidableEq

/-- C n3dc_obj_parse_obj_face on the buffer suffix starting at face_start
(the character after the tag, which for a face is the space after the f).
The while loop runs one index-group scan per iteration; a successful scan
ends at an in-bounds terminator, so the guard holds again and exactly three
iterations can complete.  After the third scan the C code tests
file_chars[index_group_end] without consulting the scan's error flag;
index_group_end is stale (still the scan's start offset) when that scan
failed. -/
def n3dc_obj_parse_obj_face (s : List Char) : FaceResult :=
  match s with
  | [] => .fail .faceEof
  | _ :: _ =>
    match n3dc_obj_parse_obj_index_group s with
    | .fail e => .fail e
    | .ok (v1, t1, n1, e1, _) =>
      if e1 < s.length then
        match n3dc_obj_parse_obj_index_group (s.drop e1) with
        | .fail e => .fail e
        | .ok (v2, t2, n2, e2, _) =>
          if e1 + e2 < s.length then
            match n3dc_obj_parse_obj_index_group ((s.drop e1).drop e2) with
            | .fail _ =>
              if ((s.drop e1).drop e2).headD ' ' ≠ '\n' then .fail .faceNonTriangulated
              else .uninit (v1, t1, n1) (v2, t2, n2) (e1 + e2)
            | .ok (v3, t3, n3, e3, c3) =>
              if c3 ≠ '\n' then .fail .faceNonTriangulated
              else .ok ⟨v1, t1, n1, v2, t2, n2, v3, t3, n3, e1 + e2 + e3⟩
          else .fail .faceEof
      else .fail .faceEof

/-- First newline position in a character list. -/
def firstNL : List Char → Option Nat
  | [] => none
  | c :: rs => if c = '\n' then some 0 else (firstNL rs).map (· + 1)

/-- Result of n3dc_obj_seek_end_of_line. -/
inductive SeekResult
  | lineEnd (r : Nat)
  | eofTrunc
  | outOfBounds
deriving DecidableEq

/-- C n3dc_obj_seek_end_of_line on the buffer suffix starting at start_offset.
The C loop condition compares start_offset, which the loop never modifies,
against the buffer length, so with a nonempty suffix the scan is bounded only
by finding a newline byte: when the suffix holds no newline the index walks
past the end of the allocation (undefined behaviour, outOfBounds here).  With
an empty suffix the loop body never runs and the truncation diagnostic is
printed. -/
def n3dc_obj_seek_end_of_line (u : List Char) : SeekResult :=
  match u with
  | [] => .eofTrunc
  | _ :: _ =>
    match firstNL u with
    | some r => .lineEnd r
    | none => .outOfBounds

/-- Parser state of the driver loop: the four record counters and the raw
attribute pools and index arrays in append order. -/
structure LoadState where
  parsedV : Nat
  parsedT : Nat
  parsedN : Nat
  parsedI : Nat
  verts : List ℚ
  texs : List ℚ
  norms : List ℚ
  vIdx : List Nat
  tIdx : List Nat
  nIdx : List Nat
deriving DecidableEq

/-- Driver state before the first record. -/
def initState : LoadState := ⟨0, 0, 0, 0, [], [], [], [], [], []⟩

/-- C n3dc_obj_t. -/
structure n3dc_obj_t where
  num_vertices : Nat
  vertices : List ℚ
  normals : List ℚ
  texture_coords : List ℚ
deriving DecidableEq

/-- Outcome of a load: the returned object, a NULL return with the given
diagnostic, undefined behaviour (an out-of-allocation access or a result that
depends on uninitialized memory), or exhaustion of the structural-recursion
fuel (n3dc_obj_load supplies more fuel than any run can consume). -/
inductive LoadResult
  | ok (obj : n3dc_obj_t)
  | err (e : ObjError)
  | ub
  | outOfFuel
deriving DecidableEq

/-- Bounds test for the resolver reads of corner i: the C gather reads
vertices[3v..3v+2], texture_coords[2t..2t+1], normals[3n..3n+2] from pools
allocated with 3*max_vertices, 2*max_indices and 3*max_normals floats. -/
def resolveInBounds (maxV maxN maxI : Nat) (st : LoadState) : Nat → Nat → Bool
  | 0, _ => true
  | rem + 1, i =>
    (st.vIdx.getD i 0 < maxV && st.tIdx.getD i 0 < maxI && st.nIdx.getD i 0 < maxN) &&
      resolveInBounds maxV maxN maxI st rem (i + 1)

/-- Position gather of the resolver loop (3 floats per corner). -/
def resolveVerts (st : LoadState) : Nat → Nat → List ℚ
  | 0, _ => []
  | rem + 1, i =>
    let v := st.vIdx.getD i 0
    st.verts.getD (v * 3) 0 :: st.verts.getD (v * 3 + 1) 0 :: st.verts.getD (v * 3 + 2) 0 ::
      resolveVerts st rem (i + 1)

/-- Texture-coordinate gather of the resolver loop (2 floats per corner). -/
def resolveTexs (st : LoadState) : Nat → Nat → List ℚ
  | 0, _ => []
  | rem + 1, i =>
    let t := st.tIdx.getD i 0
    st.texs.getD (t * 2) 0 :: st.texs.getD (t * 2 + 1) 0 ::
      resolveTexs st rem (i + 1)

/-- Normal gather of the resolver loop (3 floats per corner). -/
def resolveNorms (st : LoadState) : Nat → Nat → List ℚ
  | 0, _ => []
  | rem + 1, i =>
    let n := st.nIdx.getD i 0
    st.norms.getD (n * 3) 0 :: st.norms.getD (n * 3 + 1) 0 :: st.norms.getD (n * 3 + 2) 0 ::
      resolveNorms st rem (i + 1)

/-- Unfaceting pass of n3dc_obj_load (lines 552-589): one gather per corner in
face-and-corner order.  An index pointing outside the corresponding pool's
allocation makes the C loop read out of bounds (ub); an index inside the
allocation but beyond the parsed records reads uninitialized floats, which
the gather functions model with the default 0. -/
def n3dc_obj_resolve (maxV maxN maxI : Nat) (st : LoadState) : LoadResult :=
  if resolveInBounds maxV maxN maxI st st.parsedI 0 then
    .ok ⟨st.parsedI,
         resolveVerts st st.parsedI 0,
         resolveNorms st st.parsedI 0,
         resolveTexs st st.parsedI 0⟩
  else .ub

/-- Driver loop of n3dc_obj_load.  The list argument is the buffer suffix
starting at current_char_offset - 1, so the loop guard
current_char_offset < file_chars_length is the demand for at least two
characters, the first being the lookback character and the second the
current one.  After a record ending at line_end the cursor resumes at
line_end + 2, i.e. the new suffix starts at line_end + 1.  Each iteration
consumes at least two characters, so fuel = length + 1 can never run out;
the outOfFuel branch only makes the recursion structural. -/
def loadLoop (maxV maxN maxI : Nat) : Nat → List Char → LoadState → LoadResult
  | 0, _, _ => .outOfFuel
  | fuel + 1, s, st =>
    match s with
    | lastC :: cur :: _ =>
      if lastC = 'v' ∧ cur = ' ' then
        if st.parsedV + 1 > maxV then .err .maxVerticesExceeded
        else
          match n3dc_obj_parse_obj_vec3 (s.drop 2) with
          | .fail e => .err e
          | .ok (x, y, z, lineEnd) =>
            loadLoop maxV maxN maxI fuel ((s.drop 2).drop (lineEnd + 1))
              { st with parsedV := st.parsedV + 1, verts := st.verts ++ [x, y, z] }
      else if lastC = 'v' ∧ cur = 't' then
        if st.parsedT + 1 > maxI then .err .maxTexCoordsExceeded
        else
          match n3dc_obj_parse_obj_vec2 (s.drop 3) with
          | .fail e => .err e
          | .ok (x, y, lineEnd) =>
            loadLoop maxV maxN maxI fuel ((s.drop 3).drop (lineEnd + 1))
              { st with parsedT := st.parsedT + 1, texs := st.texs ++ [x, y] }
      else if lastC = 'v' ∧ cur = 'n' then
        if st.parsedN + 1 > maxN then .err .maxNormalsExceeded
        else
          match n3dc_obj_parse_obj_vec3 (s.drop 3) with
          | .fail e => .err e
          | .ok (x, y, z, lineEnd) =>
            loadLoop maxV maxN maxI fuel ((s.drop 3).drop (lineEnd + 1))
              { st with parsedN := st.parsedN + 1, norms := st.norms ++ [x, y, z] }
      else if lastC = 'f' ∧ cur = ' ' then
        if st.parsedI + 3 > maxI then .err .maxIndicesExceeded
        else
          match n3dc_obj_parse_obj_face (s.drop 1) with
          | .fail e => .err e
          | .uninit _ _ _ => .ub
          | .ok out =>
            loadLoop maxV maxN maxI fuel ((s.drop 1).drop (out.lineEnd + 1))
              { st with parsedI := st.parsedI + 3,
                        vIdx := st.vIdx ++ [out.v1, out.v2, out.v3],
                        tIdx := st.tIdx ++ [out.t1, out.t2, out.t3],
                        nIdx := st.nIdx ++ [out.n1, out.n2, out.n3] }
      else
        match n3dc_obj_seek_end_of_line (s.drop 1) with
        | .lineEnd r => loadLoop maxV maxN maxI fuel (s.drop (r + 2)) st
        | .eofTrunc => .err .seekEof
        | .outOfBounds => .ub
    | _ => n3dc_obj_resolve maxV maxN maxI st

/-- C n3dc_obj_load after the file read: contents is the byte buffer, the
three maxima are the caller capacities.  Driver cursor starts at offset 1
with the lookback character at offset 0, i.e. on the whole buffer. -/
def n3dc_obj_load (contents : List Char) (maxV maxN maxI : Nat) : LoadResult :=
  loadLoop maxV maxN maxI (contents.length + 1) contents initState

/-- Character test: not a slash. -/
def pSlash : Char → Bool := fun c => !(c == '/')

/-- Character test: not an index-group terminator (space or newline). -/
def pTerm : Char → Bool := fun c => !(c == ' ' || c == '\n')

/-- Character test: neither slash nor terminator. -/
def pPlain : Char → Bool := fun c => !(c == '/' || c == ' ' || c == '\n')

/-- Spec-side description of index-group scanning (spec section 4.3), stated
with direct slicing instead of a scan loop: the vertex section is everything
before the first '/', the record window w runs from just after that '/' to
the first space or newline (the terminator; if none exists inside the buffer
the scan is a truncation error), the texture section is the part of w before
its first '/' and the normal section the part after it; the texture index is
mandatory, every component must convert to at least 1, and each stored index
is the converted source value minus 1. -/
def indexGroupSpec (s : List Char) : ParseOut (Nat × Nat × Nat × Nat × Char) :=
  let v := s.takeWhile pSlash
  let r1 := (s.dropWhile pSlash).drop 1
  let w := r1.takeWhile pTerm
  if w.length = r1.length then .fail .idxEof
  else
    let t := w.takeWhile pSlash
    let n := (w.dropWhile pSlash).drop 1
    finishChecks v t n (v.length + 1 + w.length) (r1.getD w.length ' ') (w.contains '/')

/-- Two-character lookahead pairs the driver loop dispatches on. -/
def isTagPair (a b : Char) : Bool :=
  (a == 'v' && (b == ' ' || b == 't' || b == 'n')) || (a == 'f' && b == ' ')

/-- A line the driver can only skip: nonempty, newline-terminated, no inner
newline, and not starting with one of the four dispatch pairs. -/
def skippableLine (l : List Char) : Bool :=
  !l.isEmpty && (l.getLast? == some '\n') && !(l.dropLast.contains '\n') &&
    (match l.dropLast with
     | a :: b :: _ => !(isTagPair a b)
     | _ => true)

/-- Concatenation of a list of lines into one buffer. -/
def joinLines : List (List Char) → List Char
  | [] => []
  | l :: ls => l ++ joinLines ls

/-- n copies of a line, concatenated. -/
def flatRep (n : Nat) (l : List Char) : List Char :=
  match n with
  | 0 => []
  | m + 1 => l ++ flatRep m l

/-- A minimal well-formed position record. -/
def vLine : List Char := ("v 1 1 1\n").data

/-- A minimal well-formed texture-coordinate record. -/
def vtLine : List Char := ("vt 0.5 0.5\n").data

/-- Input of the spec's success scenario: one position, one texture
coordinate, one normal, one triangulated face referencing each once. -/
def c1Input : List Char :=
  ("v 0.0 1.0 2.0\nvt 0.5 0.5\nvn 0.0 0.0 1.0\nf 1/1/1 1/1/1 1/1/1\n").data

/-- Object the scenario input loads to: 3 corners, each with position
(0, 1, 2), normal (0, 0, 1) and texture coordinate (1/2, 1/2). -/
def c1Expected : n3dc_obj_t :=
  ⟨3, [0, 1, 2, 0, 1, 2, 0, 1, 2], [0, 0, 1, 0, 0, 1, 0, 0, 1],
   [mkRat 1 2, mkRat 1 2, mkRat 1 2, mkRat 1 2, mkRat 1 2, mkRat 1 2]⟩

/-- A face record with four index groups. -/
def c4Input : List Char := ("f 1/1/1 1/1/1 1/1/1 1/1/1\n").data

/-- An unrecognized line with no terminating newline. -/
def c6Input : List Char := ("# hi").data

/-- A blank line followed by a position record; the driver's skip step starts
scanning at the first character of the record line and therefore consumes it
whole. -/
def c5SkipInput : List Char := ("\nv 1 1 1\n").data

/-- A blank line followed by a texture-coordinate record. -/
def c9SkipInput : List Char := ("\nvt 0.5 0.5\n").data

/-- The scenario input with an alphabetic character inside the first vertex
index field; atoi stops at the invalid character, so the field converts to 1
and the group is accepted silently. -/
def c7AcceptInput : List Char :=
  ("v 0.0 1.0 2.0\nvt 0.5 0.5\nvn 0.0 0.0 1.0\nf 1x/1/1 1/1/1 1/1/1\n").data

/-- The scenario input with a purely alphabetic first vertex index field;
atoi yields 0 and the zero check rejects the group. -/
def c7RejectInput : List Char :=
  ("v 0.0 1.0 2.0\nvt 0.5 0.5\nvn 0.0 0.0 1.0\nf x/1/1 1/1/1 1/1/1\n").data

/-- Lines with no recognized records: a comment, a blank line, an object
directive. -/
def c10Lines : List (List Char) := [("# comment\n").data, ("\n").data, ("o cube\n").data]

theorem min_uint_eq (a b : Nat) : n3dc_obj_min_uint a b = min a b := by
  unfold n3dc_obj_min_uint
  split <;> omega

theorem take_min_ten (sec : List Char) :
    (sec.take 10).take (n3dc_obj_min_uint (sec.take 10).length 10) =
      sec.take (n3dc_obj_min_uint sec.length 10) := by
  simp only [min_uint_eq, List.take_take, List.length_take]
  congr 1
  omega

/-- C8: every character range handed to the numeric token converters is
silently truncated to its first 10 characters before conversion, so the
conversion of a range and of its 10-character cut agree for both the float
and the unsigned-integer converters. -/
theorem claim_c8 (sec : List Char) :
    n3dc_obj_string_section_to_float sec = n3dc_obj_string_section_to_float (sec.take 10) ∧
      n3dc_obj_string_section_to_uint sec = n3dc_obj_string_section_to_uint (sec.take 10) := by
  unfold n3dc_obj_string_section_to_float n3dc_obj_string_section_to_uint
  rw [take_min_ten]
  exact ⟨rfl, rfl⟩

/-- C1: the four-line scenario input loaded with capacities (1, 1, 3)
succeeds with 3 corners, each carrying position (0, 1, 2), texture
coordinate (1/2, 1/2) and normal (0, 0, 1). -/
theorem claim_c1 : n3dc_obj_load c1Input 1 1 3 = .ok c1Expected := by decide

/-- C2 counterexample: on the scenario input with exactly one face line the
load succeeds with corner count 3 = 3F, but the positions array holds 9
scalars, not the 3F = 3 scalar units the claim states. -/
theorem claim_c2_counterexample :
    n3dc_obj_load c1Input 1 1 3 = .ok c1Expected ∧
      c1Expected.num_vertices = 3 * 1 ∧ c1Expected.vertices.length ≠ 3 * 1 := by decide

/-- C5 counterexample: this input contains 0 + 1 position records, yet with
max_vertices = 0 the load succeeds (with an empty object): the blank first
line makes the skip step consume the whole position record, which is never
counted, so the claimed capacity failure does not happen and the result is a
truncated success. -/
theorem claim_c5_counterexample :
    n3dc_obj_load c5SkipInput 0 1 1 = .ok ⟨0, [], [], []⟩ := by decide

/-- C6: on a file whose only line lacks the terminating newline the
skip-to-next-newline loop never tests its running index against the buffer
length (the C condition compares the loop-invariant start_offset instead),
so it scans past the end of the allocation instead of reporting the
truncation error; the load exhibits undefined behaviour rather than the
claimed synchronous failure. -/
theorem claim_c6_bug :
    n3dc_obj_seek_end_of_line (c6Input.drop 1) = .outOfBounds ∧
      n3dc_obj_load c6Input 1 1 1 = .ub := by decide

/-- C7 counterexample: an alphabetic character inside a face index field is
not rejected: the field 1x converts to 1 via atoi's prefix rule and the load
succeeds, contradicting the claim that an invalid character in an index
field makes the load fail. -/
theorem claim_c7_counterexample :
    n3dc_obj_load c7AcceptInput 1 1 3 = .ok c1Expected := by decide

/-- C9 counterexample: this input contains 1 texture-coordinate record and
max_indices = 0, yet the load succeeds with an empty object because the
blank first line makes the skip step consume the vt record unseen. -/
theorem claim_c9_counterexample :
    n3dc_obj_load c9SkipInput 1 1 0 = .ok ⟨0, [], [], []⟩ := by decide

theorem flatRep_len (l : List Char) (n : Nat) : (flatRep n l).length = n * l.length := by
  induction n with
  | zero => simp [flatRep]
  | succ m ih => simp [flatRep, ih]; ring

theorem vec3_one_one_one (t : List Char) :
    n3dc_obj_parse_obj_vec3 ('1' :: ' ' :: '1' :: ' ' :: '1' :: '\n' :: t) = .ok (1, 1, 1, 5) := rfl

theorem vec2_half_half (t : List Char) :
    n3dc_obj_parse_obj_vec2 ('0' :: '.' :: '5' :: ' ' :: '0' :: '.' :: '5' :: '\n' :: t) =
      .ok (mkRat 1 2, mkRat 1 2, 7) := rfl

theorem vline_step (maxV maxN maxI fuel : Nat) (t : List Char) (st : LoadState)
    (h : st.parsedV + 1 ≤ maxV) :
    loadLoop maxV maxN maxI (fuel + 1) (vLine ++ t) st =
      loadLoop maxV maxN maxI fuel t
        { st with parsedV := st.parsedV + 1, verts := st.verts ++ [1, 1, 1] } := by
  have hv : vLine ++ t = 'v' :: ' ' :: '1' :: ' ' :: '1' :: ' ' :: '1' :: '\n' :: t := rfl
  rw [hv]
  simp only [loadLoop, List.drop]
  rw [if_pos (show True ∧ True from ⟨trivial, trivial⟩),
    if_neg (by omega : ¬ st.parsedV + 1 > maxV), vec3_one_one_one]
  rfl

theorem vcap_step (maxV maxN maxI fuel : Nat) (rest : List Char) (st : LoadState)
    (h : maxV < st.parsedV + 1) :
    loadLoop maxV maxN maxI (fuel + 1) ('v' :: ' ' :: rest) st = .err .maxVerticesExceeded := by
  simp only [loadLoop]
  rw [if_pos (show True ∧ True from ⟨trivial, trivial⟩),
    if_pos (by omega : st.parsedV + 1 > maxV)]

theorem vtline_step (maxV maxN maxI fuel : Nat) (t : List Char) (st : LoadState)
    (h : st.parsedT + 1 ≤ maxI) :
    loadLoop maxV maxN maxI (fuel + 1) (vtLine ++ t) st =
      loadLoop maxV maxN maxI fuel t
        { st with parsedT := st.parsedT + 1, texs := st.texs ++ [mkRat 1 2, mkRat 1 2] } := by
  have hv : vtLine ++ t =
      'v' :: 't' :: ' ' :: '0' :: '.' :: '5' :: ' ' :: '0' :: '.' :: '5' :: '\n' :: t := rfl
  rw [hv]
  simp only [loadLoop, List.drop]
  rw [if_neg (by decide : ¬ (True ∧ 't' = ' ')),
    if_pos (show True ∧ True from ⟨trivial, trivial⟩),
    if_neg (by omega : ¬ st.parsedT + 1 > maxI), vec2_half_half]
  rfl

theorem vtcap_step (maxV maxN maxI fuel : Nat) (rest : List Char) (st : LoadState)
    (h : maxI < st.parsedT + 1) :
    loadLoop maxV maxN maxI (fuel + 1) ('v' :: 't' :: rest) st = .err .maxTexCoordsExceeded := by
  simp only [loadLoop]
  rw [if_neg (by decide : ¬ (True ∧ 't' = ' ')),
    if_pos (show True ∧ True from ⟨trivial, trivial⟩),
    if_pos (by omega : st.parsedT + 1 > maxI)]

theorem c5_aux (maxN maxI : Nat) :
    ∀ (k : Nat) (st : LoadState) (fuel : Nat) (rest : List Char) (maxV : Nat),
      maxV = st.parsedV + k → k + 1 ≤ fuel →
      loadLoop maxV maxN maxI fuel (flatRep k vLine ++ ('v' :: ' ' :: rest)) st =
        .err .maxVerticesExceeded := by
  intro k
  induction k with
  | zero =>
    intro st fuel rest maxV hm hf
    match fuel, hf with
    | fuel + 1, _ =>
      have he : flatRep 0 vLine ++ ('v' :: ' ' :: rest) = 'v' :: ' ' :: rest := rfl
      rw [he]
      exact vcap_step maxV maxN maxI fuel rest st (by omega)
  | succ m ih =>
    intro st fuel rest maxV hm hf
    match fuel, hf with
    | fuel + 1, _ =>
      have hsplit : flatRep (m + 1) vLine ++ ('v' :: ' ' :: rest) =
          vLine ++ (flatRep m vLine ++ ('v' :: ' ' :: rest)) := by
        simp [flatRep]
      rw [hsplit, vline_step maxV maxN maxI fuel _ st (by omega)]
      exact ih _ fuel rest maxV (by simp; omega) (by omega)

/-- C5 amended: whenever the driver reaches a k+1-th position record after k
position records have been parsed with max_vertices = k, the load fails with
the capacity-exceeded diagnostic for vertices; the check happens before the
record body is scanned, so the failure is independent of everything after
the record's tag (rest is arbitrary, even empty or malformed). -/
theorem claim_c5 (k maxN maxI : Nat) (rest : List Char) :
    n3dc_obj_load (flatRep k vLine ++ ('v' :: ' ' :: rest)) k maxN maxI =
      .err .maxVerticesExceeded := by
  unfold n3dc_obj_load
  refine c5_aux maxN maxI k initState _ rest k (by simp [initState]) ?_
  have h8 : vLine.length = 8 := rfl
  simp [flatRep_len, h8]
  omega

theorem c9_aux (maxV maxN : Nat) :
    ∀ (n : Nat) (st : LoadState) (fuel : Nat) (maxI : Nat),
      1 ≤ n → maxI < st.parsedT + n → n + 1 ≤ fuel →
      loadLoop maxV maxN maxI fuel (flatRep n vtLine) st = .err .maxTexCoordsExceeded := by
  intro n
  induction n with
  | zero => intro st fuel maxI h1 _ _; omega
  | succ m ih =>
    intro st fuel maxI h1 h2 hf
    match fuel, hf with
    | fuel + 1, _ =>
      by_cases hc : st.parsedT + 1 ≤ maxI
      · have hm : 1 ≤ m := by omega
        have hsplit : flatRep (m + 1) vtLine = vtLine ++ flatRep m vtLine := rfl
        rw [hsplit, vtline_step maxV maxN maxI fuel _ st hc]
        exact ih _ fuel maxI hm (by simp; omega) (by omega)
      · have hsplit : flatRep (m + 1) vtLine =
            'v' :: 't' :: (' ' :: '0' :: '.' :: '5' :: ' ' :: '0' :: '.' :: '5' :: '\n' :: []
              ++ flatRep m vtLine) := rfl
        rw [hsplit]
        exact vtcap_step maxV maxN maxI fuel _ st (by omega)

/-- C9 amended: texture-coordinate records are counted against max_indices
(the corner capacity; there is no dedicated texture-coordinate capacity):
a file of n texture-coordinate records with n > max_indices makes the load
fail with the texture-coordinate capacity diagnostic, for every value of the
other two capacities. -/
theorem claim_c9 (n maxV maxN maxI : Nat) (h : maxI < n) :
    n3dc_obj_load (flatRep n vtLine) maxV maxN maxI = .err .maxTexCoordsExceeded := by
  unfold n3dc_obj_load
  refine c9_aux maxV maxN n initState _ maxI (by omega) (by simp [initState]; omega) ?_
  have h11 : vtLine.length = 11 := rfl
  simp [flatRep_len, h11]
  omega

/-- C9 witness: one texture-coordinate record with max_indices = 0. -/
theorem claim_c9_witness :
    n3dc_obj_load (flatRep 1 vtLine) 5 5 0 = .err .maxTexCoordsExceeded :=
  claim_c9 1 5 5 0 (by omega)

theorem resolveVerts_len (st : LoadState) : ∀ (rem i : Nat), (resolveVerts st rem i).length = 3 * rem := by
  intro rem
  induction rem with
  | zero => intro i; simp [resolveVerts]
  | succ m ih => intro i; simp [resolveVerts, ih]; ring

theorem resolveTexs_len (st : LoadState) : ∀ (rem i : Nat), (resolveTexs st rem i).length = 2 * rem := by
  intro rem
  induction rem with
  | zero => intro i; simp [resolveTexs]
  | succ m ih => intro i; simp [resolveTexs, ih]; ring

theorem resolveNorms_len (st : LoadState) : ∀ (rem i : Nat), (resolveNorms st rem i).length = 3 * rem := by
  intro rem
  induction rem with
  | zero => intro i; simp [resolveNorms]
  | succ m ih => intro i; simp [resolveNorms, ih]; ring

theorem resolve_ok_shape (maxV maxN maxI : Nat) (st : LoadState) (r : n3dc_obj_t)
    (h : n3dc_obj_resolve maxV maxN maxI st = .ok r) :
    r.num_vertices = st.parsedI ∧ r.vertices.length = 3 * st.parsedI ∧
      r.normals.length = 3 * st.parsedI ∧ r.texture_coords.length = 2 * st.parsedI := by
  unfold n3dc_obj_resolve at h
  split at h
  · injection h with h1
    subst h1
    simp [resolveVerts_len, resolveNorms_len, resolveTexs_len]
  · exact absurd h (by simp)

theorem loadLoop_ok_shape :
    ∀ (fuel : Nat) (s : List Char) (maxV maxN maxI : Nat) (st : LoadState) (r : n3dc_obj_t),
      loadLoop maxV maxN maxI fuel s st = .ok r → st.parsedI % 3 = 0 →
      r.num_vertices % 3 = 0 ∧ r.vertices.length = 3 * r.num_vertices ∧
        r.normals.length = 3 * r.num_vertices ∧ r.texture_coords.length = 2 * r.num_vertices := by
  intro fuel
  induction fuel with
  | zero =>
    intro s maxV maxN maxI st r h hmod
    exact absurd h (by simp [loadLoop])
  | succ n ih =>
    intro s maxV maxN maxI st r h hmod
    match s with
    | [] =>
      simp only [loadLoop] at h
      obtain ⟨h1, h2, h3, h4⟩ := resolve_ok_shape _ _ _ _ _ h
      exact ⟨by omega, by omega, by omega, by omega⟩
    | [a] =>
      simp only [loadLoop] at h
      obtain ⟨h1, h2, h3, h4⟩ := resolve_ok_shape _ _ _ _ _ h
      exact ⟨by omega, by omega, by omega, by omega⟩
    | a :: b :: rest =>
      simp only [loadLoop] at h
      by_cases hb1 : a = 'v' ∧ b = ' '
      · rw [if_pos hb1] at h
        by_cases hc : st.parsedV + 1 > maxV
        · rw [if_pos hc] at h; exact absurd h (by simp)
        · rw [if_neg hc] at h
          cases hp : n3dc_obj_parse_obj_vec3 (List.drop 2 (a :: b :: rest)) with
          | fail e => rw [hp] at h; exact absurd h (by simp)
          | ok q =>
            obtain ⟨x, y, z, le⟩ := q
            rw [hp] at h
            exact ih _ _ _ _ _ _ h (by simpa using hmod)
      · rw [if_neg hb1] at h
        by_cases hb2 : a = 'v' ∧ b = 't'
        · rw [if_pos hb2] at h
          by_cases hc : st.parsedT + 1 > maxI
          · rw [if_pos hc] at h; exact absurd h (by simp)
          · rw [if_neg hc] at h
            cases hp : n3dc_obj_parse_obj_vec2 (List.drop 3 (a :: b :: rest)) with
            | fail e => rw [hp] at h; exact absurd h (by simp)
            | ok q =>
              obtain ⟨x, y, le⟩ := q
              rw [hp] at h
              exact ih _ _ _ _ _ _ h (by simpa using hmod)
        · rw [if_neg hb2] at h
          by_cases hb3 : a = 'v' ∧ b = 'n'
          · rw [if_pos hb3] at h
            by_cases hc : st.parsedN + 1 > maxN
            · rw [if_pos hc] at h; exact absurd h (by simp)
            · rw [if_neg hc] at h
              cases hp : n3dc_obj_parse_obj_vec3 (List.drop 3 (a :: b :: rest)) with
              | fail e => rw [hp] at h; exact absurd h (by simp)
              | ok q =>
                obtain ⟨x, y, z, le⟩ := q
                rw [hp] at h
                exact ih _ _ _ _ _ _ h (by simpa using hmod)
          · rw [if_neg hb3] at h
            by_cases hb4 : a = 'f' ∧ b = ' '
            · rw [if_pos hb4] at h
              by_cases hc : st.parsedI + 3 > maxI
              · rw [if_pos hc] at h; exact absurd h (by simp)
              · rw [if_neg hc] at h
                cases hp : n3dc_obj_parse_obj_face (List.drop 1 (a :: b :: rest)) with
                | fail e => rw [hp] at h; exact absurd h (by simp)
                | uninit g1 g2 le => rw [hp] at h; exact absurd h (by simp)
                | ok out =>
                  rw [hp] at h
                  exact ih _ _ _ _ _ _ h (by simp; omega)
            · rw [if_neg hb4] at h
              cases hp : n3dc_obj_seek_end_of_line (List.drop 1 (a :: b :: rest)) with
              | lineEnd rr => rw [hp] at h; exact ih _ _ _ _ _ _ h (by simpa using hmod)
              | eofTrunc => rw [hp] at h; exact absurd h (by simp)
              | outOfBounds => rw [hp] at h; exact absurd h (by simp)

/-- C2 amended: every successful load returns a corner count divisible by 3
(three corners per parsed face record) and output arrays holding 3 scalars
per corner for positions and normals and 2 scalars per corner for texture
coordinates, i.e. 9F, 9F and 6F scalar units for F face records, not the
3F and 2F scalar units of the original claim. -/
theorem claim_c2 (contents : List Char) (maxV maxN maxI : Nat) (r : n3dc_obj_t)
    (h : n3dc_obj_load contents maxV maxN maxI = .ok r) :
    r.num_vertices % 3 = 0 ∧ r.vertices.length = 3 * r.num_vertices ∧
      r.normals.length = 3 * r.num_vertices ∧ r.texture_coords.length = 2 * r.num_vertices :=
  loadLoop_ok_shape _ _ _ _ _ _ _ h (by simp [initState])

/-- C2 witness: the scenario load instantiates the amended count invariant. -/
theorem claim_c2_witness :
    c1Expected.num_vertices % 3 = 0 ∧
      c1Expected.vertices.length = 3 * c1Expected.num_vertices ∧
      c1Expected.normals.length = 3 * c1Expected.num_vertices ∧
      c1Expected.texture_coords.length = 2 * c1Expected.num_vertices :=
  claim_c2 c1Input 1 1 3 c1Expected (by decide)

theorem tw_cons_pos {p : Char → Bool} {c : Char} (h : p c = true) (l : List Char) :
    (c :: l).takeWhile p = c :: l.takeWhile p := by
  rw [List.takeWhile_cons, if_pos h]

theorem tw_cons_neg {p : Char → Bool} {c : Char} (h : p c = false) (l : List Char) :
    (c :: l).takeWhile p = [] := by
  rw [List.takeWhile_cons, if_neg (by simp [h])]

theorem dw_cons_pos {p : Char → Bool} {c : Char} (h : p c = true) (l : List Char) :
    (c :: l).dropWhile p = l.dropWhile p := by
  rw [List.dropWhile_cons, if_pos h]

theorem dw_cons_neg {p : Char → Bool} {c : Char} (h : p c = false) (l : List Char) :
    (c :: l).dropWhile p = c :: l := by
  rw [List.dropWhile_cons, if_neg (by simp [h])]

theorem bool_not_true {b : Bool} (h : ¬ b = true) : b = false := by
  cases b
  · rfl
  · exact absurd rfl h

theorem tw_len_le (p : Char → Bool) : ∀ l : List Char, (l.takeWhile p).length ≤ l.length := by
  intro l
  induction l with
  | nil => simp
  | cons c rs ih =>
    by_cases h : p c = true
    · rw [tw_cons_pos h]
      simp only [List.length_cons]
      omega
    · rw [tw_cons_neg (bool_not_true h)]
      simp only [List.length_nil, List.length_cons]
      omega

theorem tw_all (p : Char → Bool) : ∀ l : List Char, (∀ c ∈ l, p c = true) → l.takeWhile p = l := by
  intro l
  induction l with
  | nil => simp
  | cons c rs ih =>
    intro h
    rw [tw_cons_pos (h c (by simp))]
    exact congrArg (c :: ·) (ih (fun d hd => h d (by simp [hd])))

theorem tw_append_true (p : Char → Bool) : ∀ (u : List Char), (∀ c ∈ u, p c = true) →
    ∀ l : List Char, (u ++ l).takeWhile p = u ++ l.takeWhile p := by
  intro u
  induction u with
  | nil => simp
  | cons c us ih =>
    intro hu l
    simp only [List.cons_append]
    rw [tw_cons_pos (hu c (by simp))]
    exact congrArg (c :: ·) (ih (fun d hd => hu d (by simp [hd])) l)

theorem dw_append_true (p : Char → Bool) : ∀ (u : List Char), (∀ c ∈ u, p c = true) →
    ∀ l : List Char, (u ++ l).dropWhile p = l.dropWhile p := by
  intro u
  induction u with
  | nil => simp
  | cons c us ih =>
    intro hu l
    simp only [List.cons_append]
    rw [dw_cons_pos (hu c (by simp))]
    exact ih (fun d hd => hu d (by simp [hd])) l

theorem drop_len_append (a : List Char) : ∀ (b : List Char) (n : Nat),
    (a ++ b).drop (a.length + n) = b.drop n := by
  induction a with
  | nil => simp
  | cons c as ih =>
    intro b n
    have hl : (c :: as).length + n = (as.length + n) + 1 := by simp; omega
    rw [hl]
    simp only [List.cons_append, List.drop_succ_cons]
    exact ih b n

theorem getD_append_len (a : List Char) : ∀ (b : List Char) (n : Nat) (d : Char),
    (a ++ b).getD (a.length + n) d = b.getD n d := by
  induction a with
  | nil => simp
  | cons c as ih =>
    intro b n d
    have hl : (c :: as).length + n = (as.length + n) + 1 := by simp; omega
    rw [hl]
    simp only [List.cons_append, List.getD_cons_succ]
    exact ih b n d

theorem all_of_tw_len (p : Char → Bool) : ∀ l : List Char,
    (l.takeWhile p).length = l.length → ∀ c ∈ l, p c = true := by
  intro l
  induction l with
  | nil => simp
  | cons c rs ih =>
    intro h
    by_cases hc : p c = true
    · intro d hd
      rcases List.mem_cons.mp hd with h1 | h1
      · subst h1; exact hc
      · refine ih ?_ d h1
        rw [tw_cons_pos hc] at h
        simp only [List.length_cons] at h
        omega
    · rw [tw_cons_neg (bool_not_true hc)] at h
      simp only [List.length_nil, List.length_cons] at h
      omega

theorem tw_split (p : Char → Bool) : ∀ l : List Char,
    (l.takeWhile p).length ≠ l.length →
      l = l.takeWhile p ++ l.getD (l.takeWhile p).length ' ' :: l.drop ((l.takeWhile p).length + 1) ∧
        p (l.getD (l.takeWhile p).length ' ') = false := by
  intro l
  induction l with
  | nil => simp
  | cons c rs ih =>
    intro h
    by_cases hc : p c = true
    · rw [tw_cons_pos hc] at h ⊢
      simp only [List.length_cons] at h ⊢
      have h2 : (rs.takeWhile p).length ≠ rs.length := by omega
      obtain ⟨ha, hb⟩ := ih h2
      refine ⟨?_, ?_⟩
      · simp only [List.getD_cons_succ, List.drop_succ_cons, List.cons_append]
        exact congrArg (c :: ·) ha
      · simp only [List.getD_cons_succ]
        exact hb
    · rw [tw_cons_neg (bool_not_true hc)]
      simp only [List.length_nil, List.getD_cons_zero, List.nil_append, List.drop_succ_cons,
        List.drop_zero]
      exact ⟨True.intro, bool_not_true hc⟩

theorem dw_nil_of_tw_len (p : Char → Bool) : ∀ l : List Char,
    (l.takeWhile p).length = l.length → l.dropWhile p = [] := by
  intro l
  induction l with
  | nil => simp
  | cons c rs ih =>
    intro h
    by_cases hc : p c = true
    · rw [tw_cons_pos hc] at h
      simp only [List.length_cons] at h
      rw [dw_cons_pos hc]
      exact ih (by omega)
    · rw [tw_cons_neg (bool_not_true hc)] at h
      simp only [List.length_nil, List.length_cons] at h
      have := tw_len_le p rs
      omega

theorem idxGo_phase2 (vT tT : List Char) :
    ∀ (rest : List Char) (i : Nat) (acc : List Char),
      idxGo rest i true true vT tT acc =
        if (rest.takeWhile pTerm).length = rest.length then .fail .idxEof
        else
          finishChecks vT tT (acc ++ rest.takeWhile pTerm) (i + (rest.takeWhile pTerm).length)
            (rest.getD (rest.takeWhile pTerm).length ' ') true := by
  intro rest
  induction rest with
  | nil =>
    intro i acc
    simp [idxGo]
  | cons c rs ih =>
    intro i acc
    by_cases hterm : pTerm c = true
    · have hbe : (c == ' ' || c == '\n') = false := by
        simp only [pTerm] at hterm
        revert hterm
        cases h2 : (c == ' ' || c == '\n') <;> simp
      have hstep : idxGo (c :: rs) i true true vT tT acc =
          idxGo rs (i + 1) true true vT tT (acc ++ [c]) := by
        simp only [idxGo]
        by_cases hsl : c = '/'
        · rw [if_pos hsl]
          simp
        · rw [if_neg hsl, if_neg (by simp [hbe])]
      rw [hstep, ih (i + 1) (acc ++ [c]), tw_cons_pos hterm]
      simp only [List.length_cons, List.getD_cons_succ]
      by_cases hlen : (rs.takeWhile pTerm).length = rs.length
      · rw [if_pos hlen, if_pos (by omega)]
      · rw [if_neg hlen, if_neg (by omega)]
        have e1 : acc ++ c :: rs.takeWhile pTerm = (acc ++ [c]) ++ rs.takeWhile pTerm := by simp
        have e2 : i + ((rs.takeWhile pTerm).length + 1) = i + 1 + (rs.takeWhile pTerm).length := by
          omega
        rw [e1, e2]
    · have hterm2 : pTerm c = false := bool_not_true hterm
      have hbe : (c == ' ' || c == '\n') = true := by
        simp only [pTerm] at hterm2
        revert hterm2
        cases h2 : (c == ' ' || c == '\n') <;> simp
      have hsl : ¬ c = '/' := by
        intro hc
        subst hc
        exact absurd hbe (by decide)
      simp only [idxGo]
      rw [if_neg hsl, if_pos (by simp [hbe]), tw_cons_neg hterm2]
      simp only [List.length_nil, List.getD_cons_zero, List.append_nil, Nat.add_zero,
        List.length_cons]
      rw [if_neg (by omega)]


theorem term_true_of (c : Char) (h1 : pPlain c = false) (h2 : ¬ c = '/') :
    (c == ' ' || c == '\n') = true := by
  have h3 : (c == '/') = false := by
    cases h4 : (c == '/')
    · rfl
    · exact absurd (beq_iff_eq.mp h4) h2
  simp only [pPlain, h3, Bool.false_or] at h1
  cases h5 : (c == ' ' || c == '\n')
  · rw [h5] at h1
    simp at h1
  · rfl

theorem idxGo_phase1 (vT tTd : List Char) :
    ∀ (rest : List Char) (i : Nat) (acc : List Char),
      idxGo rest i true false vT tTd acc =
        if (rest.takeWhile pPlain).length = rest.length then .fail .idxEof
        else if rest.getD (rest.takeWhile pPlain).length ' ' = '/' then
          idxGo (rest.drop ((rest.takeWhile pPlain).length + 1))
            (i + (rest.takeWhile pPlain).length + 1) true true vT (acc ++ rest.takeWhile pPlain) []
        else .fail .idxNoTexture := by
  intro rest
  induction rest with
  | nil =>
    intro i acc
    simp [idxGo]
  | cons c rs ih =>
    intro i acc
    by_cases hp : pPlain c = true
    · have hsl : ¬ c = '/' := by
        intro hc
        subst hc
        exact absurd hp (by decide)
      have hbe : (c == ' ' || c == '\n') = false := by
        cases h2 : (c == ' ' || c == '\n')
        · rfl
        · have hfalse : pPlain c = false := by
            simp only [pPlain]
            cases h4 : (c == ' ')
            · rw [h4, Bool.false_or] at h2
              rw [h2, Bool.or_true, Bool.not_true]
            · rw [Bool.or_true, Bool.true_or, Bool.not_true]
          rw [hfalse] at hp
          exact absurd hp (by simp)
      have hstep : idxGo (c :: rs) i true false vT tTd acc =
          idxGo rs (i + 1) true false vT tTd (acc ++ [c]) := by
        simp only [idxGo]
        rw [if_neg hsl, if_neg (by simp [hbe])]
      rw [hstep, ih (i + 1) (acc ++ [c]), tw_cons_pos hp]
      simp only [List.length_cons, List.getD_cons_succ, List.drop_succ_cons]
      by_cases hlen : (rs.takeWhile pPlain).length = rs.length
      · rw [if_pos hlen,
          if_pos (show (rs.takeWhile pPlain).length + 1 = rs.length + 1 from by omega)]
      · rw [if_neg hlen,
          if_neg (show ¬ ((rs.takeWhile pPlain).length + 1 = rs.length + 1) from by omega)]
        by_cases hc0 : rs.getD (rs.takeWhile pPlain).length ' ' = '/'
        · rw [if_pos hc0, if_pos hc0]
          have e1 : acc ++ c :: rs.takeWhile pPlain = (acc ++ [c]) ++ rs.takeWhile pPlain := by
            simp
          have e2 : i + ((rs.takeWhile pPlain).length + 1) + 1 =
              i + 1 + (rs.takeWhile pPlain).length + 1 := by omega
          rw [e1, e2]
        · rw [if_neg hc0, if_neg hc0]
    · have hp2 : pPlain c = false := bool_not_true hp
      by_cases hsl : c = '/'
      · subst hsl
        rw [tw_cons_neg (by decide : pPlain '/' = false), List.append_nil]
        rfl
      · have hbe : (c == ' ' || c == '\n') = true := term_true_of c hp2 hsl
        rw [tw_cons_neg hp2]
        simp only [List.length_nil, List.getD_cons_zero, List.length_cons]
        rw [if_neg (show ¬ (0 = rs.length + 1) from by omega), if_neg hsl]
        simp only [idxGo]
        rw [if_neg hsl, if_pos (by simp [hbe])]
        simp [finishChecks]

theorem idxGo_phase0 (vTd tTd : List Char) :
    ∀ (rest : List Char) (i : Nat) (acc : List Char),
      idxGo rest i false false vTd tTd acc =
        if (rest.takeWhile pSlash).length = rest.length then .fail .idxEof
        else
          idxGo (rest.drop ((rest.takeWhile pSlash).length + 1))
            (i + (rest.takeWhile pSlash).length + 1) true false (acc ++ rest.takeWhile pSlash)
            tTd [] := by
  intro rest
  induction rest with
  | nil =>
    intro i acc
    simp [idxGo]
  | cons c rs ih =>
    intro i acc
    by_cases hsl : c = '/'
    · subst hsl
      rw [tw_cons_neg (by decide : pSlash '/' = false), List.append_nil]
      rfl
    · have hp : pSlash c = true := by
        simp only [pSlash]
        cases h3 : (c == '/')
        · simp
        · exact absurd (beq_iff_eq.mp h3) hsl
      have hstep : idxGo (c :: rs) i false false vTd tTd acc =
          idxGo rs (i + 1) false false vTd tTd (acc ++ [c]) := by
        simp only [idxGo]
        rw [if_neg hsl, if_neg (by simp)]
      rw [hstep, ih (i + 1) (acc ++ [c]), tw_cons_pos hp]
      simp only [List.length_cons, List.getD_cons_succ, List.drop_succ_cons]
      by_cases hlen : (rs.takeWhile pSlash).length = rs.length
      · rw [if_pos hlen,
          if_pos (show (rs.takeWhile pSlash).length + 1 = rs.length + 1 from by omega)]
      · rw [if_neg hlen,
          if_neg (show ¬ ((rs.takeWhile pSlash).length + 1 = rs.length + 1) from by omega)]
        have e1 : acc ++ c :: rs.takeWhile pSlash = (acc ++ [c]) ++ rs.takeWhile pSlash := by simp
        have e2 : i + ((rs.takeWhile pSlash).length + 1) + 1 =
            i + 1 + (rs.takeWhile pSlash).length + 1 := by omega
        rw [e1, e2]

theorem all_tw (p : Char → Bool) : ∀ l : List Char, ∀ c ∈ l.takeWhile p, p c = true := by
  intro l
  induction l with
  | nil => simp
  | cons a rs ih =>
    intro c hc
    by_cases ha : p a = true
    · rw [tw_cons_pos ha] at hc
      rcases List.mem_cons.mp hc with h1 | h1
      · subst h1; exact ha
      · exact ih c h1
    · rw [tw_cons_neg (bool_not_true ha)] at hc
      simp at hc

theorem beq_false_symm {a b : Char} (h : ¬ a = b) : (b == a) = false := by
  cases hx : (b == a)
  · rfl
  · exact absurd (beq_iff_eq.mp hx).symm h

theorem pPlain_parts {c : Char} (h : pPlain c = true) :
    (c == '/') = false ∧ (c == ' ') = false ∧ (c == '\n') = false := by
  revert h
  simp only [pPlain]
  cases h1 : (c == '/') <;> cases h2 : (c == ' ') <;> cases h3 : (c == '\n') <;> simp

theorem pTerm_of_pPlain {c : Char} (h : pPlain c = true) : pTerm c = true := by
  obtain ⟨h1, h2, h3⟩ := pPlain_parts h
  simp [pTerm, h2, h3]

theorem pSlash_of_pPlain {c : Char} (h : pPlain c = true) : pSlash c = true := by
  obtain ⟨h1, h2, h3⟩ := pPlain_parts h
  simp [pSlash, h1]

theorem pTerm_false_of (c : Char) (h1 : pPlain c = false) (h2 : ¬ c = '/') : pTerm c = false := by
  have hbe := term_true_of c h1 h2
  simp [pTerm, hbe]

theorem contains_mid (u t : List Char) : (u ++ '/' :: t).contains '/' = true := by
  induction u with
  | nil => simp [List.contains_cons]
  | cons a us ih => simp [List.contains_cons, ih]

theorem contains_none (u : List Char) (hu : ∀ c ∈ u, pPlain c = true) :
    u.contains '/' = false := by
  induction u with
  | nil => simp [List.contains]
  | cons a us ih =>
    have h1 : ¬ a = '/' := by
      intro hx
      subst hx
      exact absurd (hu '/' (by simp)) (by decide)
    simp only [List.contains_cons, beq_false_symm h1, Bool.false_or]
    exact ih (fun c hc => hu c (by simp [hc]))

/-- C3: the index-group scanner agrees everywhere with its spec-side
description: the three 1-based source components are the atoi conversions of
the slash-delimited sections, each must convert to at least 1 (a conversion
of 0 is the distinct missing-or-invalid hard error for that component), and
every stored index is exactly the converted source value minus 1. -/
theorem claim_c3 (s : List Char) : n3dc_obj_parse_obj_index_group s = indexGroupSpec s := by
  unfold n3dc_obj_parse_obj_index_group indexGroupSpec
  rw [idxGo_phase0 [] [] s 0 []]
  by_cases hv : (s.takeWhile pSlash).length = s.length
  · rw [if_pos hv, dw_nil_of_tw_len pSlash s hv]
    simp
  · rw [if_neg hv]
    obtain ⟨hs_eq, hs_p⟩ := tw_split pSlash s hv
    have hc0 : s.getD (s.takeWhile pSlash).length ' ' = '/' := by
      simp only [pSlash] at hs_p
      cases h4 : (s.getD (s.takeWhile pSlash).length ' ' == '/')
      · rw [h4] at hs_p
        simp at hs_p
      · exact beq_iff_eq.mp h4
    have hdw : s.dropWhile pSlash = '/' :: s.drop ((s.takeWhile pSlash).length + 1) := by
      have h1 := congrArg (List.dropWhile pSlash) hs_eq
      rw [h1, dw_append_true pSlash _ (all_tw pSlash s), dw_cons_neg hs_p, hc0]
    rw [hdw]
    simp only [List.drop_succ_cons, List.drop_zero, List.nil_append]
    set v := s.takeWhile pSlash with hv_def
    set r1 := s.drop (v.length + 1) with hr1_def
    rw [idxGo_phase1 v [] r1 (0 + v.length + 1) []]
    simp only [List.nil_append]
    by_cases hu : (r1.takeWhile pPlain).length = r1.length
    · rw [if_pos hu]
      have hall : ∀ c ∈ r1, pPlain c = true := all_of_tw_len pPlain r1 hu
      have hw : r1.takeWhile pTerm = r1 := tw_all pTerm r1 (fun c hc => pTerm_of_pPlain (hall c hc))
      rw [hw, if_pos rfl]
    · rw [if_neg hu]
      obtain ⟨hr_eq, hr_p⟩ := tw_split pPlain r1 hu
      set u := r1.takeWhile pPlain with hu_def
      set c1 := r1.getD u.length ' ' with hc1_def
      set r2 := r1.drop (u.length + 1) with hr2_def
      have hlen_r1 : r1.length = u.length + 1 + r2.length := by
        have := congrArg List.length hr_eq
        simp at this
        omega
      by_cases hc1 : c1 = '/'
      · rw [if_pos hc1]
        rw [idxGo_phase2 v u r2 (0 + v.length + 1 + u.length + 1) []]
        by_cases hw2 : (r2.takeWhile pTerm).length = r2.length
        · rw [if_pos hw2]
          have hall2 : ∀ c ∈ r2, pTerm c = true := all_of_tw_len pTerm r2 hw2
          have hw : r1.takeWhile pTerm = u ++ '/' :: r2 := by
            have h1 := congrArg (List.takeWhile pTerm) hr_eq
            rw [h1, hc1, tw_append_true pTerm u (fun c hc => pTerm_of_pPlain (all_tw pPlain r1 c hc)),
              tw_cons_pos (by decide : pTerm '/' = true), tw_all pTerm r2 hall2]
          rw [hw, if_pos (by simp; omega)]
        · rw [if_neg hw2]
          obtain ⟨hr2_eq, hr2_p⟩ := tw_split pTerm r2 hw2
          set w2 := r2.takeWhile pTerm with hw2_def
          have hw : r1.takeWhile pTerm = u ++ '/' :: w2 := by
            have h1 := congrArg (List.takeWhile pTerm) hr_eq
            rw [h1, hc1, tw_append_true pTerm u (fun c hc => pTerm_of_pPlain (all_tw pPlain r1 c hc)),
              tw_cons_pos (by decide : pTerm '/' = true)]
          have hlen_w2 : w2.length ≤ r2.length := tw_len_le pTerm r2
          rw [hw, if_neg (by simp; omega)]
          have ht : (u ++ '/' :: w2).takeWhile pSlash = u := by
            rw [tw_append_true pSlash u (fun c hc => pSlash_of_pPlain (all_tw pPlain r1 c hc)),
              tw_cons_neg (by decide : pSlash '/' = false)]
            simp
          have hn : ((u ++ '/' :: w2).dropWhile pSlash).drop 1 = w2 := by
            rw [dw_append_true pSlash u (fun c hc => pSlash_of_pPlain (all_tw pPlain r1 c hc)),
              dw_cons_neg (by decide : pSlash '/' = false)]
            simp
          have hterm : r1.getD (u ++ '/' :: w2).length ' ' = r2.getD w2.length ' ' := by
            have h1 := congrArg (fun l => l.getD (u ++ '/' :: w2).length ' ') hr_eq
            simp only at h1
            rw [h1, hc1]
            have h2 : u ++ '/' :: r2 = (u ++ ['/']) ++ r2 := by simp
            have h3 : (u ++ '/' :: w2).length = (u ++ ['/']).length + w2.length := by
              simp only [List.length_append, List.length_cons, List.length_nil]
              omega
            rw [h2, h3, getD_append_len]
          rw [ht, hn, hterm, contains_mid]
          have e1 : v.length + 1 + (u ++ '/' :: w2).length =
              0 + v.length + 1 + u.length + 1 + w2.length := by
            simp
            omega
          rw [e1, List.nil_append]
      · rw [if_neg hc1]
        have hw : r1.takeWhile pTerm = u := by
          have h1 := congrArg (List.takeWhile pTerm) hr_eq
          rw [h1, tw_append_true pTerm u (fun c hc => pTerm_of_pPlain (all_tw pPlain r1 c hc)),
            tw_cons_neg (pTerm_false_of c1 hr_p hc1)]
          simp
        rw [hw, if_neg (by omega),
          contains_none u (fun c hc => all_tw pPlain r1 c hc)]
        simp [finishChecks]

theorem idxGroup_ok_lt (s : List Char) (out : Nat × Nat × Nat × Nat × Char)
    (h : n3dc_obj_parse_obj_index_group s = .ok out) : out.2.2.2.1 < s.length := by
  obtain ⟨v, t, n, e, c⟩ := out
  simp only [claim_c3, indexGroupSpec] at h
  split at h
  · exact absurd h (by simp)
  · rename_i hcond
    have hsplit := congrArg List.length (List.takeWhile_append_dropWhile (p := pSlash) (l := s))
    simp only [List.length_append] at hsplit
    have hd : s.dropWhile pSlash ≠ [] := by
      intro hnil
      rw [hnil] at hcond
      simp at hcond
    have hdlen : 1 ≤ (s.dropWhile pSlash).length := by
      cases hx : s.dropWhile pSlash
      · exact absurd hx hd
      · simp
    have hwlt : ((((s.dropWhile pSlash).drop 1).takeWhile pTerm)).length <
        ((s.dropWhile pSlash).drop 1).length := by
      have h1 := tw_len_le pTerm ((s.dropWhile pSlash).drop 1)
      omega
    simp only [finishChecks] at h
    split at h
    · exact absurd h (by simp)
    · split at h
      · exact absurd h (by simp)
      · split at h
        · exact absurd h (by simp)
        · split at h
          · exact absurd h (by simp)
          · simp only [ParseOut.ok.injEq, Prod.mk.injEq] at h
            obtain ⟨_, _, _, he, _⟩ := h
            show e < s.length
            simp only [List.length_drop] at hwlt hcond he
            omega

/-- C4: a face whose three index groups all scan successfully but whose third
group is terminated by a space (the signature of a fourth index group) fails
with the distinct non-triangulated-geometry diagnostic, and loading a file
with such a face line fails the same way. -/
theorem claim_c4 :
    (∀ (s : List Char) (v1 t1 n1 e1 : Nat) (c1 : Char) (v2 t2 n2 e2 : Nat) (c2 : Char)
        (v3 t3 n3 e3 : Nat),
        n3dc_obj_parse_obj_index_group s = .ok (v1, t1, n1, e1, c1) →
        n3dc_obj_parse_obj_index_group (s.drop e1) = .ok (v2, t2, n2, e2, c2) →
        n3dc_obj_parse_obj_index_group ((s.drop e1).drop e2) = .ok (v3, t3, n3, e3, ' ') →
        n3dc_obj_parse_obj_face s = .fail .faceNonTriangulated) ∧
      n3dc_obj_load c4Input 1 1 3 = .err .faceNonTriangulated := by
  constructor
  · intro s v1 t1 n1 e1 c1 v2 t2 n2 e2 c2 v3 t3 n3 e3 h1 h2 h3
    have hb1 : e1 < s.length := idxGroup_ok_lt s _ h1
    have hb2 : e2 < (s.drop e1).length := idxGroup_ok_lt _ _ h2
    have hlen : e1 + e2 < s.length := by
      simp only [List.length_drop] at hb2
      omega
    cases s with
    | nil => simp at hb1
    | cons a ss =>
      simp only [n3dc_obj_parse_obj_face, h1, h2, h3]
      rw [if_pos hb1, if_pos hlen, if_pos (by decide : ¬ (' ' = '\n'))]
  · decide

/-- C4 witness: the four-group face record fails with the non-triangulated
diagnostic. -/
theorem claim_c4_witness :
    n3dc_obj_parse_obj_face ((" 1/1/1 1/1/1 1/1/1 1/1/1\n").data) = .fail .faceNonTriangulated :=
  claim_c4.1 ((" 1/1/1 1/1/1 1/1/1 1/1/1\n").data) 0 0 0 6 ' ' 0 0 0 6 ' ' 0 0 0 6
    (by decide) (by decide) (by decide)

theorem vec3Go_invalid :
    ∀ (pre : List Char), (∀ a ∈ pre, n3dc_obj_is_valid_vec_char a = true ∨ a = ' ') →
    ∀ (c : Char), n3dc_obj_is_valid_vec_char c = false → ¬ c = ' ' → ¬ c = '\n' →
    ∀ (post : List Char) (i : Nat) (xP yP : Bool) (xT yT acc : List Char),
      vec3Go (pre ++ c :: post) i xP yP xT yT acc = .fail (.vec3InvalidChar c) := by
  intro pre
  induction pre with
  | nil =>
    intro _ c hc hcs hcn post i xP yP xT yT acc
    simp only [List.nil_append, vec3Go]
    rw [if_neg hcs, if_neg hcn, if_neg (by simp [hc])]
  | cons a ps ih =>
    intro hpre c hc hcs hcn post i xP yP xT yT acc
    have ha := hpre a (by simp)
    simp only [List.cons_append, vec3Go]
    rcases ha with ha | ha
    · have has : ¬ a = ' ' := by
        intro hx
        subst hx
        exact absurd ha (by decide)
      have han : ¬ a = '\n' := by
        intro hx
        subst hx
        exact absurd ha (by decide)
      rw [if_neg has, if_neg han, if_pos ha]
      exact ih (fun d hd => hpre d (by simp [hd])) c hc hcs hcn post (i + 1) xP yP xT yT (acc ++ [a])
    · subst ha
      rw [if_pos rfl]
      by_cases hx : xP = false
      · rw [if_pos hx]
        exact ih (fun d hd => hpre d (by simp [hd])) c hc hcs hcn post (i + 1) true yP acc yT [' ']
      · rw [if_neg hx]
        by_cases hy : yP = false
        · rw [if_pos hy]
          exact ih (fun d hd => hpre d (by simp [hd])) c hc hcs hcn post (i + 1) xP true xT acc [' ']
        · rw [if_neg hy]
          exact ih (fun d hd => hpre d (by simp [hd])) c hc hcs hcn post (i + 1) xP yP xT yT
            (acc ++ [' '])

/-- C7 amended: in vector records any character outside the digit, dot,
minus, space, newline set is a hard parse error with the invalid-character
diagnostic, but face index-group fields are not character-validated: a
component whose numeric prefix converts to a nonzero value is accepted no
matter what follows it (the acceptance is claim_c7_counterexample), and a
component converts to 0, for example a purely alphabetic field, only then
makes the load fail through the zero-index check. -/
theorem claim_c7 :
    (∀ (pre : List Char), (∀ a ∈ pre, n3dc_obj_is_valid_vec_char a = true ∨ a = ' ') →
      ∀ (c : Char), n3dc_obj_is_valid_vec_char c = false → ¬ c = ' ' → ¬ c = '\n' →
      ∀ post : List Char,
        n3dc_obj_parse_obj_vec3 (pre ++ c :: post) = .fail (.vec3InvalidChar c)) ∧
      n3dc_obj_load c7RejectInput 1 1 3 = .err .idxVertexZero := by
  constructor
  · intro pre hpre c h1 h2 h3 post
    exact vec3Go_invalid pre hpre c h1 h2 h3 post 0 false false [] [] []
  · decide

/-- C7 witness: a stray character inside a position record aborts the scan
with the invalid-character diagnostic. -/
theorem claim_c7_witness :
    n3dc_obj_parse_obj_vec3 (['0'] ++ '@' :: ['\n']) = .fail (.vec3InvalidChar '@') :=
  claim_c7.1 ['0']
    (by
      intro a ha
      rcases List.mem_singleton.mp ha with rfl
      exact Or.inl (by decide))
    '@' (by decide) (by decide) (by decide) ['\n']

theorem mem_contains (c : Char) : ∀ l : List Char, c ∈ l → l.contains c = true := by
  intro l
  induction l with
  | nil => simp
  | cons a rs ih =>
    intro h
    rcases List.mem_cons.mp h with rfl | h1
    · simp only [List.contains_cons, beq_self_eq_true, Bool.true_or]
    · simp only [List.contains_cons, ih h1, Bool.or_true]

theorem firstNL_concat (body : List Char) (hb : ¬ '\n' ∈ body) (t : List Char) :
    firstNL (body ++ '\n' :: t) = some body.length := by
  induction body with
  | nil => simp [firstNL]
  | cons a bs ih =>
    have ha : ¬ a = '\n' := by
      intro hx
      subst hx
      exact hb (by simp)
    simp only [List.cons_append, firstNL, List.append_eq]
    rw [if_neg ha, ih (fun hx => hb (by simp [hx]))]
    simp

theorem seek_line (body t : List Char) (hb : ¬ '\n' ∈ body) :
    n3dc_obj_seek_end_of_line (body ++ '\n' :: t) = .lineEnd body.length := by
  cases body with
  | nil =>
    simp only [List.nil_append, n3dc_obj_seek_end_of_line]
    rw [show firstNL ('\n' :: t) = some 0 from by simp [firstNL]]
    rfl
  | cons a bs =>
    have hx : (a :: bs) ++ '\n' :: t = a :: (bs ++ '\n' :: t) := rfl
    rw [hx]
    simp only [n3dc_obj_seek_end_of_line]
    rw [show firstNL (a :: (bs ++ '\n' :: t)) = some (a :: bs).length from by
      have h2 := firstNL_concat (a :: bs) hb t
      simpa using h2]

theorem notTag_step (maxV maxN maxI fuel : Nat) (st : LoadState) (a b : Char) (tail : List Char)
    (h1 : ¬ (a = 'v' ∧ b = ' ')) (h2 : ¬ (a = 'v' ∧ b = 't')) (h3 : ¬ (a = 'v' ∧ b = 'n'))
    (h4 : ¬ (a = 'f' ∧ b = ' ')) :
    loadLoop maxV maxN maxI (fuel + 1) (a :: b :: tail) st =
      match n3dc_obj_seek_end_of_line (b :: tail) with
      | .lineEnd r => loadLoop maxV maxN maxI fuel ((a :: b :: tail).drop (r + 2)) st
      | .eofTrunc => .err .seekEof
      | .outOfBounds => .ub := by
  simp only [loadLoop]
  rw [if_neg h1, if_neg h2, if_neg h3, if_neg h4]
  rfl

theorem notTag_conds {a b : Char} (h : isTagPair a b = false) :
    ¬ (a = 'v' ∧ b = ' ') ∧ ¬ (a = 'v' ∧ b = 't') ∧ ¬ (a = 'v' ∧ b = 'n') ∧
      ¬ (a = 'f' ∧ b = ' ') := by
  refine ⟨?_, ?_, ?_, ?_⟩ <;> rintro ⟨rfl, rfl⟩ <;> exact absurd h (by decide)

theorem skippable_parts (l : List Char) (h : skippableLine l = true) :
    ∃ body, l = body ++ ['\n'] ∧ ¬ '\n' ∈ body ∧
      (∀ a b t2, body = a :: b :: t2 → isTagPair a b = false) := by
  unfold skippableLine at h
  rw [Bool.and_eq_true, Bool.and_eq_true, Bool.and_eq_true] at h
  obtain ⟨⟨⟨hA, hB⟩, hC⟩, hD⟩ := h
  have hne : l ≠ [] := by
    intro hx
    subst hx
    simp at hA
  have hlast : l.getLast hne = '\n' := by
    have hx1 : l.getLast? = some '\n' := beq_iff_eq.mp hB
    have hx2 := List.getLast?_eq_getLast l hne
    rw [hx1] at hx2
    exact (Option.some.inj hx2).symm
  refine ⟨l.dropLast, ?_, ?_, ?_⟩
  · rw [← hlast]
    exact (List.dropLast_append_getLast hne).symm
  · intro hmem
    rw [mem_contains '\n' l.dropLast hmem] at hC
    simp at hC
  · intro a b t2 hbd
    rw [hbd] at hD
    simp at hD
    exact hD

theorem skipAll (maxV maxN maxI : Nat) (st : LoadState) :
    ∀ (nn : Nat) (lines : List (List Char)), lines.length ≤ nn →
      (∀ l ∈ lines, skippableLine l = true) →
      ∀ fuel : Nat, (joinLines lines).length + 1 ≤ fuel →
      loadLoop maxV maxN maxI fuel (joinLines lines) st =
        n3dc_obj_resolve maxV maxN maxI st := by
  intro nn
  induction nn with
  | zero =>
    intro lines h1 h2 fuel hf
    match lines, h1 with
    | [], _ =>
      match fuel, hf with
      | f + 1, _ => rfl
  | succ m ih =>
    intro lines h1 h2 fuel hf
    match lines with
    | [] =>
      match fuel, hf with
      | f + 1, _ => rfl
    | l :: rest =>
      obtain ⟨body, hbody_eq, hbody_nl, hbody_tag⟩ := skippable_parts l (h2 l (by simp))
      have hjoin : joinLines (l :: rest) = body ++ '\n' :: joinLines rest := by
        simp [joinLines, hbody_eq]
      have hjlen := congrArg List.length hjoin
      simp only [List.length_append, List.length_cons] at hjlen
      match fuel, hf with
      | f + 1, hf =>
        cases body with
        | nil =>
          cases rest with
          | nil =>
            rw [hjoin]
            rfl
          | cons l2 rest2 =>
            obtain ⟨body2, hb2_eq, hb2_nl, hb2_tag⟩ := skippable_parts l2 (h2 l2 (by simp))
            have hjoin2 : joinLines (l2 :: rest2) = body2 ++ '\n' :: joinLines rest2 := by
              simp [joinLines, hb2_eq]
            have hrec : loadLoop maxV maxN maxI f (joinLines rest2) st =
                n3dc_obj_resolve maxV maxN maxI st := by
              refine ih rest2 ?_ (fun x hx => h2 x (by simp [hx])) f ?_
              · simp only [List.length_cons] at h1
                omega
              · have hj2len := congrArg List.length hjoin2
                simp only [List.length_append, List.length_cons] at hj2len
                omega
            rw [hjoin, hjoin2]
            simp only [List.nil_append]
            cases body2 with
            | nil =>
              simp only [List.nil_append]
              rw [notTag_step maxV maxN maxI f st '\n' '\n' (joinLines rest2)
                (by rintro ⟨hx, _⟩; exact absurd hx (by decide))
                (by rintro ⟨hx, _⟩; exact absurd hx (by decide))
                (by rintro ⟨hx, _⟩; exact absurd hx (by decide))
                (by rintro ⟨hx, _⟩; exact absurd hx (by decide))]
              rw [show n3dc_obj_seek_end_of_line ('\n' :: joinLines rest2) = .lineEnd 0 from by
                have hs := seek_line [] (joinLines rest2) (by simp)
                simpa using hs]
              exact hrec
            | cons b2c body2r =>
              simp only [List.cons_append]
              rw [notTag_step maxV maxN maxI f st '\n' b2c (body2r ++ '\n' :: joinLines rest2)
                (by rintro ⟨hx, _⟩; exact absurd hx (by decide))
                (by rintro ⟨hx, _⟩; exact absurd hx (by decide))
                (by rintro ⟨hx, _⟩; exact absurd hx (by decide))
                (by rintro ⟨hx, _⟩; exact absurd hx (by decide))]
              rw [show n3dc_obj_seek_end_of_line (b2c :: (body2r ++ '\n' :: joinLines rest2)) =
                  .lineEnd (b2c :: body2r).length from by
                have hs := seek_line (b2c :: body2r) (joinLines rest2) hb2_nl
                simpa using hs]
              show loadLoop maxV maxN maxI f
                  (('\n' :: b2c :: (body2r ++ '\n' :: joinLines rest2)).drop
                    ((b2c :: body2r).length + 2)) st = n3dc_obj_resolve maxV maxN maxI st
              rw [show ('\n' :: b2c :: (body2r ++ '\n' :: joinLines rest2)).drop
                  ((b2c :: body2r).length + 2) = joinLines rest2 from by
                simp only [List.length_cons, List.drop_succ_cons]
                have hd := drop_len_append body2r ('\n' :: joinLines rest2) 1
                simp only [List.drop_succ_cons, List.drop_zero] at hd
                exact hd]
              exact hrec
        | cons bc body1 =>
          have hrec : loadLoop maxV maxN maxI f (joinLines rest) st =
              n3dc_obj_resolve maxV maxN maxI st := by
            refine ih rest ?_ (fun x hx => h2 x (by simp [hx])) f ?_
            · simp only [List.length_cons] at h1
              omega
            · simp only [List.length_cons] at hjlen
              omega
          rw [hjoin]
          cases body1 with
          | nil =>
            simp only [List.cons_append, List.nil_append]
            rw [notTag_step maxV maxN maxI f st bc '\n' (joinLines rest)
              (by rintro ⟨_, hx⟩; exact absurd hx (by decide))
              (by rintro ⟨_, hx⟩; exact absurd hx (by decide))
              (by rintro ⟨_, hx⟩; exact absurd hx (by decide))
              (by rintro ⟨_, hx⟩; exact absurd hx (by decide))]
            rw [show n3dc_obj_seek_end_of_line ('\n' :: joinLines rest) = .lineEnd 0 from by
              have hs := seek_line [] (joinLines rest) (by simp)
              simpa using hs]
            exact hrec
          | cons b2 body2 =>
            simp only [List.cons_append]
            obtain ⟨ht1, ht2, ht3, ht4⟩ := notTag_conds (hbody_tag bc b2 body2 rfl)
            rw [notTag_step maxV maxN maxI f st bc b2 (body2 ++ '\n' :: joinLines rest)
              ht1 ht2 ht3 ht4]
            rw [show n3dc_obj_seek_end_of_line (b2 :: (body2 ++ '\n' :: joinLines rest)) =
                .lineEnd (b2 :: body2).length from by
              have hs := seek_line (b2 :: body2) (joinLines rest)
                (fun hx => hbody_nl (by simp [hx]))
              simpa using hs]
            show loadLoop maxV maxN maxI f
                ((bc :: b2 :: (body2 ++ '\n' :: joinLines rest)).drop
                  ((b2 :: body2).length + 2)) st = n3dc_obj_resolve maxV maxN maxI st
            rw [show (bc :: b2 :: (body2 ++ '\n' :: joinLines rest)).drop
                ((b2 :: body2).length + 2) = joinLines rest from by
              simp only [List.length_cons, List.drop_succ_cons]
              have hd := drop_len_append body2 ('\n' :: joinLines rest) 1
              simp only [List.drop_succ_cons, List.drop_zero] at hd
              exact hd]
            exact hrec

/-- C10: a file consisting only of skippable lines (nonempty,
newline-terminated, not starting with a dispatch pair; this covers the empty
file, comment lines, blank lines and other directives) loads successfully
with corner count 0 and empty output arrays: the absence of geometry is not
an error. -/
theorem claim_c10 (lines : List (List Char)) (h : ∀ l ∈ lines, skippableLine l = true)
    (maxV maxN maxI : Nat) :
    n3dc_obj_load (joinLines lines) maxV maxN maxI = .ok ⟨0, [], [], []⟩ := by
  unfold n3dc_obj_load
  rw [skipAll maxV maxN maxI initState lines.length lines (le_refl _) h _ (le_refl _)]
  rfl

/-- C10 witness: a comment line, a blank line and an object directive load
to the empty object. -/
theorem claim_c10_witness :
    n3dc_obj_load (joinLines c10Lines) 5 5 5 = .ok ⟨0, [], [], []⟩ :=
  claim_c10 c10Lines
    (by
      intro l hl
      simp only [c10Lines, List.mem_cons, List.not_mem_nil, or_false] at hl
      rcases hl with rfl | rfl | rfl <;> decide)
    5 5 5

end N3dcObj
